import Mathlib

/-!
Verification of the alpha-lens data-access layer.

Shallow embedding of the cache, retry and rate-limiting logic of
`alphalens/data/unified_data_manager.py` and `alphalens/data/polygon_feed.py`.
Time is modelled by exact rationals (hours for the manager cache, seconds for
the Polygon feed); cached payloads are opaque natural-number identifiers where
`0` stands for an empty DataFrame.
-/

namespace AlphaLens

/-! ### The pickle-file TTL cache of `UnifiedDataManager` -/

/-- One cache record, as pickled by `_save_to_cache`:
payload plus `datetime.now()` creation timestamp (in hours). -/
structure CacheEntry where
  data : Nat
  timestamp : ℚ
deriving DecidableEq, Repr

/-- The cache directory: one record per key (file name). -/
abbrev Cache := List (String × CacheEntry)

/-- `UnifiedDataManager._load_from_cache`: return the payload when the record
exists and its age does not exceed `maxAgeHours`; an expired record is deleted
(`os.remove`) and the lookup reports a miss.  Returns the result together with
the cache directory after the call. -/
def loadFromCache (c : Cache) (key : String) (now maxAgeHours : ℚ) :
    Option Nat × Cache :=
  match c.lookup key with
  | none => (none, c)
  | some e =>
    if now - e.timestamp ≤ maxAgeHours then (some e.data, c)
    else (none, c.filter (fun p => p.1 ≠ key))

/-- `UnifiedDataManager._save_to_cache`: (over)write the record for `key`
with the payload and the current time. -/
def saveToCache (c : Cache) (key : String) (d : Nat) (now : ℚ) : Cache :=
  (key, ⟨d, now⟩) :: c.filter (fun p => p.1 ≠ key)

/-! ### `UnifiedDataManager` state and operations -/

/-- The mutable state of a `UnifiedDataManager`: the cache directory, the
hit/miss counters, the caching switch and which sources initialised
successfully (`self.sources[name] is not None`). -/
structure MgrState where
  cache : Cache
  cacheHits : Nat
  cacheMisses : Nat
  enableCaching : Bool
  polygonAvail : Bool
  yahooAvail : Bool
  alpacaAvail : Bool
deriving DecidableEq, Repr

/-- Result of a manager call: a returned DataFrame (`0` = empty) or a raised
exception. -/
inductive MgrResult where
  | ok (d : Nat)
  | raised (msg : String)
deriving DecidableEq, Repr

/-- The cache key built by `get_historical_data`:
`f"hist_{'-'.join(symbols)}_{start.date()}_{end.date()}_{timeframe}"`.
Dates are already-formatted strings. -/
def cacheKeyHist (symbols : List String) (startD endD timeframe : String) :
    String :=
  "hist_" ++ String.intercalate "-" symbols ++ "_" ++ startD ++ "_" ++ endD
    ++ "_" ++ timeframe

/-- `UnifiedDataManager.get_historical_data`, with a fuel bound for the
failover recursion (`source="yahoo"` after a Polygon failure).  `fetch src`
is the outcome of `self.sources[src].get_historical_data(...)`: `some d` a
returned DataFrame, `none` any raised exception (including an unavailable
forced source). -/
def getHistoricalDataFuel :
    Nat → MgrState → List String → String → String → String →
      Option String → ℚ → (String → Option Nat) → MgrResult × MgrState
  | 0, st, _, _, _, _, _, _, _ => (.raised "recursion limit", st)
  | fuel + 1, st, symbols, startD, endD, tf, source, now, fetch =>
    match (if st.enableCaching then
            loadFromCache st.cache (cacheKeyHist symbols startD endD tf) now 24
          else (none, st.cache)) with
    | (some d, c₂) =>
      (.ok d, { st with cache := c₂, cacheHits := st.cacheHits + 1 })
    | (none, c₂) =>
      let st₁ := { st with cache := c₂, cacheMisses := st.cacheMisses + 1 }
      match (match source with
             | some s => some s
             | none =>
               if st.polygonAvail then some "polygon"
               else if st.yahooAvail then some "yahoo"
               else none) with
      | none => (.raised "No data sources available", st₁)
      | some src =>
        match fetch src with
        | some d =>
          if st₁.enableCaching && d ≠ 0 then
            (.ok d,
              { st₁ with
                cache := saveToCache st₁.cache
                  (cacheKeyHist symbols startD endD tf) d now })
          else (.ok d, st₁)
        | none =>
          if src = "polygon" && st₁.yahooAvail then
            getHistoricalDataFuel fuel st₁ symbols startD endD tf
              (some "yahoo") now fetch
          else (.ok 0, st₁)

/-- `get_historical_data` as called by a client; the failover chain has depth
at most two, so fuel `2` is never exhausted. -/
def getHistoricalData (st : MgrState) (symbols : List String)
    (startD endD tf : String) (source : Option String) (now : ℚ)
    (fetch : String → Option Nat) : MgrResult × MgrState :=
  getHistoricalDataFuel 2 st symbols startD endD tf source now fetch

/-- `UnifiedDataManager.get_options_chain`.  Raises when the Polygon source
is missing, before any cache or counter access; otherwise consults a
5-minute (0.083 h) cache and fetches from Polygon. -/
def getOptionsChain (st : MgrState) (sym expD strike otype : String)
    (now : ℚ) (fetch : Option Nat) : MgrResult × MgrState :=
  if !st.polygonAvail then
    (.raised "Polygon is required for options data", st)
  else
    let key := "options_" ++ sym ++ "_" ++ expD ++ "_" ++ strike ++ "_"
      ++ otype
    match (if st.enableCaching then loadFromCache st.cache key now (83 / 1000)
          else (none, st.cache)) with
    | (some d, c₂) =>
      (.ok d, { st with cache := c₂, cacheHits := st.cacheHits + 1 })
    | (none, c₂) =>
      let st₁ := { st with cache := c₂, cacheMisses := st.cacheMisses + 1 }
      match fetch with
      | some d =>
        if st₁.enableCaching && d ≠ 0 then
          (.ok d, { st₁ with cache := saveToCache st₁.cache key d now })
        else (.ok d, st₁)
      | none => (.ok 0, st₁)

/-- `UnifiedDataManager.clear_cache`: removes every file in the cache
directory.  It does not touch `cache_hits`/`cache_misses`. -/
def clearCache (st : MgrState) : MgrState :=
  { st with cache := [] }

/-- The record returned by `UnifiedDataManager.get_cache_stats`. -/
structure CacheStats where
  hits : Nat
  misses : Nat
  hitRate : ℚ
  totalRequests : Nat
deriving DecidableEq, Repr

/-- `UnifiedDataManager.get_cache_stats`. -/
def getCacheStats (st : MgrState) : CacheStats :=
  let total := st.cacheHits + st.cacheMisses
  { hits := st.cacheHits
    misses := st.cacheMisses
    hitRate := if total > 0 then (st.cacheHits : ℚ) / total else 0
    totalRequests := total }

/-- A fetch environment in which every upstream source raises. -/
def failFetch : String → Option Nat := fun _ => none

/-- Concrete manager state: Polygon and Yahoo connected, empty cache. -/
def exStPY : MgrState :=
  { cache := [], cacheHits := 0, cacheMisses := 0, enableCaching := true,
    polygonAvail := true, yahooAvail := true, alpacaAvail := false }

/-- Concrete manager state with a populated cache and nonzero counters. -/
def exStCnt : MgrState :=
  { cache := [("hist_SPY_2024-01-01_2024-01-02_1Day", ⟨9, 0⟩)],
    cacheHits := 3, cacheMisses := 2, enableCaching := true,
    polygonAvail := true, yahooAvail := true, alpacaAvail := false }

/-- Concrete manager state in which Polygon failed to initialise. -/
def exStNoPoly : MgrState :=
  { cache := [("options_AAPL_x_y_z", ⟨4, 0⟩)], cacheHits := 1,
    cacheMisses := 1, enableCaching := true, polygonAvail := false,
    yahooAvail := true, alpacaAvail := false }

/-! ### `PolygonDataFeed`: rate limiting and retried requests

Time is in seconds (exact rationals).  Each HTTP attempt is described by the
duration of the round trip and its outcome: an HTTP status code, or a
transport-level exception raised inside `session.get`. -/

/-- Outcome of one `session.get` call. -/
inductive Outcome where
  | status (code : Nat)
  | exc
deriving DecidableEq, Repr

/-- One HTTP attempt: round-trip duration plus outcome. -/
structure Attempt where
  dur : ℚ
  outcome : Outcome
deriving DecidableEq, Repr

/-- Feed state: `self.call_timestamps`, the clock, and a ghost `history` that
records every timestamp ever appended (never purged), used to state the
window invariant. -/
structure FeedState where
  callTimestamps : List ℚ
  now : ℚ
  history : List ℚ
deriving DecidableEq, Repr

/-- Observable events of `_make_request`: an `_enforce_rate_limit` admission
pass, an issued HTTP attempt (index within the request, issue time, attempt
data), or a `time.sleep`. -/
inductive Event where
  | rateCheck
  | attempt (i : Nat) (t : ℚ) (a : Attempt)
  | sleepEv (d : ℚ)
deriving DecidableEq, Repr

/-- Python `min` over a nonempty list (0 for the empty list, unreachable). -/
def listMin : List ℚ → ℚ
  | [] => 0
  | x :: xs => xs.foldl min x

/-- `PolygonDataFeed._enforce_rate_limit`: purge timestamps 60 s or older,
then, if the purged list still has at least `limit` entries, sleep until
60 s past the oldest one plus 0.1 s. -/
def enforceRateLimit (limit : Nat) (s : FeedState) : FeedState :=
  let ts := s.callTimestamps.filter (fun t => decide (s.now - t < 60))
  if limit ≤ ts.length then
    let wait := 60 - (s.now - listMin ts)
    if 0 < wait then
      { callTimestamps := ts, now := s.now + wait + 1 / 10,
        history := s.history }
    else
      { callTimestamps := ts, now := s.now, history := s.history }
  else
    { callTimestamps := ts, now := s.now, history := s.history }

/-- The retry loop of `PolygonDataFeed._make_request`
(`for attempt in range(retries)`).  `f i` is the i-th attempt's behaviour.
A 200 returns the payload; a 429 sleeps 60 s and retries; a 5xx sleeps
`2 ** attempt` and retries; any other status returns `None` at once.  A
transport exception sleeps `2 ** attempt` and retries unless this was the
last attempt.  The timestamp is appended after `session.get` returns, so an
attempt that raises appends nothing.  Returns (result, state, events). -/
def requestLoop (f : Nat → Attempt) :
    Nat → Nat → FeedState → Option Unit × FeedState × List Event
  | _, 0, s => (none, s, [])
  | i, fuel + 1, s =>
    let a := f i
    match a.outcome with
    | .status c =>
      let t := s.now + a.dur
      let s₁ : FeedState :=
        { callTimestamps := s.callTimestamps ++ [t], now := t,
          history := s.history ++ [t] }
      if c = 200 then (some (), s₁, [.attempt i t a])
      else if c = 429 then
        let r := requestLoop f (i + 1) fuel { s₁ with now := s₁.now + 60 }
        (r.1, r.2.1, .attempt i t a :: .sleepEv 60 :: r.2.2)
      else if 500 ≤ c then
        let r := requestLoop f (i + 1) fuel { s₁ with now := s₁.now + 2 ^ i }
        (r.1, r.2.1, .attempt i t a :: .sleepEv (2 ^ i) :: r.2.2)
      else (none, s₁, [.attempt i t a])
    | .exc =>
      let t := s.now + a.dur
      let s₁ : FeedState := { s with now := t }
      if 0 < fuel then
        let r := requestLoop f (i + 1) fuel { s₁ with now := s₁.now + 2 ^ i }
        (r.1, r.2.1, .attempt i t a :: .sleepEv (2 ^ i) :: r.2.2)
      else (none, s₁, [.attempt i t a])

/-- `PolygonDataFeed._make_request`: one admission pass through
`_enforce_rate_limit`, then the retry loop (default `retries=3`). -/
def makeRequest (limit retries : Nat) (f : Nat → Attempt) (s : FeedState) :
    Option Unit × FeedState × List Event :=
  let r := requestLoop f 0 retries (enforceRateLimit limit s)
  (r.1, r.2.1, Event.rateCheck :: r.2.2)

/-- A client-side step: idle time passing, or one `_make_request` call. -/
inductive Cmd where
  | advance (d : ℚ)
  | request (f : Nat → Attempt)

/-- A sequence of client steps against one `PolygonDataFeed`. -/
def runCmds (limit retries : Nat) : List Cmd → FeedState → FeedState
  | [], s => s
  | .advance d :: rest, s =>
    runCmds limit retries rest { s with now := s.now + d }
  | .request f :: rest, s =>
    runCmds limit retries rest (makeRequest limit retries f s).2.1

/-- Number of recorded call timestamps inside the trailing 60-second window
ending at instant `t`. -/
def countInWindow (l : List ℚ) (t : ℚ) : Nat :=
  l.countP (fun h => decide (h ≤ t ∧ t - h < 60))

/-- Recognise an HTTP-attempt event. -/
def isAttempt : Event → Bool
  | .attempt _ _ _ => true
  | _ => false

/-- Recognise an admission-check event. -/
def isRateCheck : Event → Bool
  | .rateCheck => true
  | _ => false

/-- Scan helper: `ok` says an admission check has happened since the last
attempt (or the start); every attempt must find `ok = true`. -/
def admittedFrom : Bool → List Event → Bool
  | _, [] => true
  | _, Event.rateCheck :: rest => admittedFrom true rest
  | ok, Event.attempt _ _ _ :: rest => ok && admittedFrom false rest
  | ok, Event.sleepEv _ :: rest => admittedFrom ok rest

/-- The per-attempt admission property claimed by the spec: every HTTP
attempt in the trace is preceded by its own admission pass, issued after the
previous attempt. -/
def everyAttemptAdmitted (evts : List Event) : Bool :=
  admittedFrom false evts

/-- The head of the trace, if any, is the `j`-th attempt of the request. -/
def nextIsAttemptOrEnd (j : Nat) : List Event → Bool
  | [] => true
  | Event.attempt i _ _ :: _ => decide (i = j)
  | _ => false

/-- The retry policy stated by the spec, as a predicate over event traces:
a 200 ends the trace (payload returned); a 429 is followed by a fixed 60 s
cooldown and then the next attempt (unless attempts ran out); a 5xx by a
`2 ^ attempt` backoff and then the next attempt (unless attempts ran out);
any other status ends the trace at once (no sleep, no retry); a transport
exception either ends the trace (last attempt) or backs off `2 ^ attempt`
and retries. -/
def policyOK : List Event → Bool
  | [] => true
  | Event.rateCheck :: rest => policyOK rest
  | Event.sleepEv _ :: _ => false
  | Event.attempt i _ a :: rest =>
    match a.outcome with
    | .status c =>
      if c = 200 then rest.isEmpty
      else if c = 429 then
        match rest with
        | Event.sleepEv d :: rest₂ =>
          decide (d = 60) && nextIsAttemptOrEnd (i + 1) rest₂ &&
            policyOK rest₂
        | _ => false
      else if 500 ≤ c then
        match rest with
        | Event.sleepEv d :: rest₂ =>
          decide (d = 2 ^ i) && nextIsAttemptOrEnd (i + 1) rest₂ &&
            policyOK rest₂
        | _ => false
      else rest.isEmpty
    | .exc =>
      match rest with
      | [] => true
      | Event.sleepEv d :: rest₂ =>
        decide (d = 2 ^ i) && nextIsAttemptOrEnd (i + 1) rest₂ &&
          policyOK rest₂
      | _ => false

/-- The feed state at construction time. -/
def feedStart : FeedState :=
  { callTimestamps := [], now := 0, history := [] }

/-- Attempts that succeed immediately with an instant round trip. -/
def okAttempts : Nat → Attempt := fun _ => ⟨0, .status 200⟩

/-- Attempts that hit two 500s before succeeding. -/
def twoServerErrors : Nat → Attempt := fun i =>
  if i ≤ 1 then ⟨0, .status 500⟩ else ⟨0, .status 200⟩

/-- A request step is benign when its first attempt succeeds immediately
(no retries) after a nonnegative round trip; an advance step is benign when
time moves forward. -/
def okCmd : Cmd → Prop
  | .advance d => 0 ≤ d
  | .request f => (f 0).outcome = .status 200 ∧ 0 ≤ (f 0).dur

/-- A concrete benign client run. -/
def exGoodCmds : List Cmd :=
  [.request okAttempts, .advance 1, .request okAttempts]

/-- The well-formedness invariant tying the live `call_timestamps` list to
the ghost append `history`: every recorded timestamp lies in the past, no
trailing 60-second window of the history holds more than `limit` stamps, and
at any later purge instant the live list filters to the same in-window
stamps as the history. -/
def Inv (limit : Nat) (s : FeedState) : Prop :=
  (∀ h ∈ s.history, h ≤ s.now) ∧
  (∀ t, countInWindow s.history t ≤ limit) ∧
  (∀ N, s.now ≤ N →
    s.callTimestamps.filter (fun h => decide (N - h < 60))
      = s.history.filter (fun h => decide (N - h < 60)))

/-! ### Helper lemmas about the TTL cache -/

/-- Deleting a key's record really removes it: a lookup in the filtered
cache directory reports a miss. -/
theorem lookup_filter_self (c : Cache) (key : String) :
    (c.filter (fun p => p.1 ≠ key)).lookup key = none := by
  induction c with
  | nil => rfl
  | cons p c ih =>
    obtain ⟨a, b⟩ := p
    rw [List.filter_cons]
    by_cases hp : a = key
    · rw [if_neg (by simpa using hp)]
      exact ih
    · rw [if_pos (by simpa using hp)]
      have hb : (key == a) = false := beq_false_of_ne (Ne.symm hp)
      simp only [List.lookup, hb]
      exact ih

/-- Deleting some other key's record leaves a lookup unchanged. -/
theorem lookup_filter_ne (c : Cache) (key k : String) (h : ¬ k = key) :
    (c.filter (fun p => p.1 ≠ key)).lookup k = c.lookup k := by
  induction c with
  | nil => rfl
  | cons p c ih =>
    obtain ⟨a, b⟩ := p
    rw [List.filter_cons]
    by_cases hp : a = key
    · rw [if_neg (by simpa using hp)]
      have hb : (k == a) = false := beq_false_of_ne (hp ▸ h)
      rw [ih]
      simp only [List.lookup, hb]
    · rw [if_pos (by simpa using hp)]
      by_cases hk : k = a
      · subst hk
        simp only [List.lookup, beq_self_eq_true]
      · have hb : (k == a) = false := beq_false_of_ne hk
        simp only [List.lookup, hb]
        exact ih

/-- A cache hit leaves the cache directory untouched. -/
theorem loadFromCache_hit_snd (c : Cache) (key : String) (now m : ℚ) (d : Nat)
    (h : (loadFromCache c key now m).1 = some d) :
    (loadFromCache c key now m).2 = c := by
  unfold loadFromCache at *
  cases hl : c.lookup key with
  | none => simp [hl] at h ⊢
  | some e =>
    simp only [hl] at h ⊢
    by_cases hf : now - e.timestamp ≤ m
    · simp [hf]
    · simp [hf] at h

/-- The only cache mutation a lookup can perform is eviction of an expired
record at the looked-up key. -/
theorem loadFromCache_snd_cases (c : Cache) (key : String) (now m : ℚ) :
    (loadFromCache c key now m).2 = c ∨
    (∃ e, c.lookup key = some e ∧ m < now - e.timestamp ∧
      (loadFromCache c key now m).2 = c.filter (fun p => p.1 ≠ key)) := by
  unfold loadFromCache
  cases hl : c.lookup key with
  | none => left; rfl
  | some e =>
    by_cases hf : now - e.timestamp ≤ m
    · left; simp [hl, hf]
    · right
      exact ⟨e, rfl, lt_of_not_le hf, by simp [hl, hf]⟩

/-- After evicting an expired record, every lookup with a TTL no larger than
the evicting one, at any later instant, reports the same result as before. -/
theorem load_fst_after_evict (c : Cache) (key k : String) (now now' m ttl : ℚ)
    (e : CacheEntry) (he : c.lookup key = some e)
    (hexp : ttl < now - e.timestamp) (hle : now ≤ now') (hm : m ≤ ttl) :
    (loadFromCache (c.filter (fun p => p.1 ≠ key)) k now' m).1
      = (loadFromCache c k now' m).1 := by
  by_cases hk : k = key
  · subst hk
    have h1 : (c.filter (fun p => p.1 ≠ k)).lookup k = none :=
      lookup_filter_self c k
    have h2 : ¬ (now' - e.timestamp ≤ m) := by
      have h3 : ttl < now' - e.timestamp := by linarith
      linarith
    unfold loadFromCache
    simp only [h1, he, if_neg h2]
  · have h1 := lookup_filter_ne c key k hk
    unfold loadFromCache
    rw [h1]
    cases c.lookup k with
    | none => rfl
    | some e₂ => by_cases hf : now' - e₂.timestamp ≤ m <;> simp [hf]

/-- A lookup that reports a miss keeps reporting a miss on the cache
directory it returns. -/
theorem loadFromCache_miss_again (c : Cache) (key : String) (now m : ℚ)
    (h : (loadFromCache c key now m).1 = none) :
    (loadFromCache (loadFromCache c key now m).2 key now m).1 = none := by
  rcases loadFromCache_snd_cases c key now m with hc | ⟨e, he, hexp, hc⟩
  · rw [hc]; exact h
  · rw [hc]
    have h1 := lookup_filter_self c key
    unfold loadFromCache
    simp only [h1]

/-- Whatever path `get_historical_data` takes when every upstream fetch
fails, the final cache directory is either the original one or the original
one with the (expired) record at the request's own key evicted. -/
theorem histFuel_cache_of_fetchFail (fuel : Nat) (st : MgrState)
    (symbols : List String) (startD endD tf : String) (source : Option String)
    (now : ℚ) (fetch : String → Option Nat) (hfetch : ∀ s, fetch s = none) :
    (getHistoricalDataFuel fuel st symbols startD endD tf source now
        fetch).2.cache = st.cache ∨
    (∃ e, st.cache.lookup (cacheKeyHist symbols startD endD tf) = some e ∧
      24 < now - e.timestamp ∧
      (getHistoricalDataFuel fuel st symbols startD endD tf source now
          fetch).2.cache
        = st.cache.filter
            (fun p => p.1 ≠ cacheKeyHist symbols startD endD tf)) := by
  induction fuel generalizing st source with
  | zero => left; rfl
  | succ n ih =>
    simp only [getHistoricalDataFuel, hfetch]
    split
    · rename_i d c₂ heq
      by_cases hc : st.enableCaching
      · rw [if_pos hc] at heq
        have h1 : (loadFromCache st.cache
            (cacheKeyHist symbols startD endD tf) now 24).1 = some d := by
          rw [heq]
        have h2 := loadFromCache_hit_snd st.cache
          (cacheKeyHist symbols startD endD tf) now 24 d h1
        rw [heq] at h2
        left
        simpa using h2
      · rw [if_neg hc] at heq
        exact absurd (congrArg Prod.fst heq) (by simp)
    · rename_i c₂ heq
      have hc₂ : c₂ = st.cache ∨
          (∃ e, st.cache.lookup (cacheKeyHist symbols startD endD tf)
              = some e ∧ 24 < now - e.timestamp ∧
            c₂ = st.cache.filter
              (fun p => p.1 ≠ cacheKeyHist symbols startD endD tf)) := by
        by_cases hc : st.enableCaching
        · rw [if_pos hc] at heq
          have h2 : (loadFromCache st.cache
              (cacheKeyHist symbols startD endD tf) now 24).2 = c₂ := by
            rw [heq]
          rcases loadFromCache_snd_cases st.cache
              (cacheKeyHist symbols startD endD tf) now 24 with
            hx | ⟨e, he, hexp, hx⟩
          · left; rw [← h2, hx]
          · right; exact ⟨e, he, hexp, by rw [← h2, hx]⟩
        · rw [if_neg hc] at heq
          left
          exact (congrArg Prod.snd heq).symm
      split
      · rcases hc₂ with hx | ⟨e, he, hexp, hx⟩
        · left; simpa using hx
        · right; exact ⟨e, he, hexp, by simpa using hx⟩
      · rename_i src hsel
        split
        · rcases hc₂ with hx | ⟨e₀, he₀, hexp₀, hx⟩
          · subst hx
            rcases (ih
                { st with
                  cache := st.cache
                  cacheMisses := st.cacheMisses + 1 } (some "yahoo")) with
              hy | ⟨e, he, hexp, hy⟩
            · left; simpa using hy
            · simp only at he hy
              right; exact ⟨e, he, hexp, hy⟩
          · subst hx
            rcases (ih
                { st with
                  cache := st.cache.filter
                    (fun p => p.1 ≠ cacheKeyHist symbols startD endD tf)
                  cacheMisses := st.cacheMisses + 1 } (some "yahoo")) with
              hy | ⟨e, he, hexp, hy⟩
            · simp only at hy
              right; exact ⟨e₀, he₀, hexp₀, hy⟩
            · simp only at he
              rw [lookup_filter_self] at he
              exact absurd he (by simp)
        · rcases hc₂ with hx | ⟨e, he, hexp, hx⟩
          · left; simpa using hx
          · right; exact ⟨e, he, hexp, by simpa using hx⟩

end AlphaLens

namespace AlphaLens

/-- Claim C1: a cache lookup never serves an entry older than the TTL bound:
a fresh record (age ≤ maxAge) is returned unchanged, while an expired record
(age > maxAge) is reported as a miss and physically removed from the cache. -/
theorem C1_cache_never_serves_stale (c : Cache) (key : String) (now maxAge : ℚ)
    (e : CacheEntry) (he : c.lookup key = some e) :
    (now - e.timestamp ≤ maxAge →
      (loadFromCache c key now maxAge).1 = some e.data) ∧
    (now - e.timestamp > maxAge →
      (loadFromCache c key now maxAge).1 = none ∧
      ((loadFromCache c key now maxAge).2).lookup key = none) := by
  constructor
  · intro h
    simp [loadFromCache, he, h]
  · intro h
    have h' : ¬ (now - e.timestamp ≤ maxAge) := not_le.mpr h
    refine ⟨by simp [loadFromCache, he, h'], ?_⟩
    simp only [loadFromCache, he, if_neg h']
    exact lookup_filter_self c key

/-- Witness for C1 at a concrete expired entry. -/
theorem C1_cache_never_serves_stale_witness :
    ((30 : ℚ) - 0 ≤ 24 →
      (loadFromCache [("k", ⟨7, 0⟩)] "k" 30 24).1 = some (7 : Nat)) ∧
    ((30 : ℚ) - 0 > 24 →
      (loadFromCache [("k", ⟨7, 0⟩)] "k" 30 24).1 = none ∧
      ((loadFromCache [("k", ⟨7, 0⟩)] "k" 30 24).2).lookup "k" = none) := by
  have h := C1_cache_never_serves_stale [("k", ⟨7, 0⟩)] "k" 30 24 ⟨7, 0⟩ (by rfl)
  simpa using h

/-- Claim C3 (amended): when every candidate source fails, the call does not
raise and does not return an error value: it returns an empty DataFrame
(`ok 0`) as if it were an ordinary result, the failure reasons being only
logged. -/
theorem C3_total_failure_returns_empty (st : MgrState) (symbols : List String)
    (startD endD tf : String) (source : Option String) (now : ℚ)
    (fetch : String → Option Nat) (hfetch : ∀ s, fetch s = none)
    (hmiss : (loadFromCache st.cache (cacheKeyHist symbols startD endD tf)
        now 24).1 = none)
    (hsrc : source ≠ none ∨ st.polygonAvail = true ∨ st.yahooAvail = true) :
    (getHistoricalData st symbols startD endD tf source now fetch).1
      = .ok 0 := by
  unfold getHistoricalData
  simp only [getHistoricalDataFuel, hfetch]
  split
  · rename_i d c₂ heq
    by_cases hc : st.enableCaching
    · rw [if_pos hc] at heq
      have h1 := congrArg Prod.fst heq
      rw [hmiss] at h1
      exact absurd h1 (by simp)
    · rw [if_neg hc] at heq
      exact absurd (congrArg Prod.fst heq) (by simp)
  · rename_i c₂ heq
    have hmiss₂ : (loadFromCache c₂ (cacheKeyHist symbols startD endD tf)
        now 24).1 = none := by
      by_cases hc : st.enableCaching
      · rw [if_pos hc] at heq
        have h2 := congrArg Prod.snd heq
        simp only at h2
        rw [← h2]
        exact loadFromCache_miss_again _ _ _ _ hmiss
      · rw [if_neg hc] at heq
        have h2 := congrArg Prod.snd heq
        simp only at h2
        rw [← h2]
        exact hmiss
    split
    · rename_i hsel
      cases hso : source with
      | some s => rw [hso] at hsel; simp at hsel
      | none =>
        rw [hso] at hsel
        rcases hsrc with h | h | h
        · exact absurd hso h
        · rw [h] at hsel; simp at hsel
        · by_cases hp : st.polygonAvail
          · rw [hp] at hsel; simp at hsel
          · simp only [hp] at hsel
            rw [h] at hsel
            simp at hsel
    · rename_i src hsel
      split
      · split
        · rename_i d c₃ heq₂
          by_cases hc : st.enableCaching
          · rw [if_pos hc] at heq₂
            have h1 := congrArg Prod.fst heq₂
            rw [hmiss₂] at h1
            exact absurd h1 (by simp)
          · rw [if_neg hc] at heq₂
            exact absurd (congrArg Prod.fst heq₂) (by simp)
        · rw [if_neg (by simp)]
      · rfl

/-- Counterexample for claim C3 as stated: with Polygon and Yahoo both
configured and both fetches failing, the call returns an ordinary empty
DataFrame (`ok 0`); it raises no error value at all, so no aggregated error
listing the providers' failure reasons reaches the caller. -/
theorem C3_counterexample :
    (getHistoricalData exStPY ["SPY"] "2024-01-01" "2024-01-05" "1Day" none 0
        failFetch).1 = MgrResult.ok 0 := by
  decide

/-- Witness for C3 at a concrete all-sources-fail input. -/
theorem C3_total_failure_returns_empty_witness :
    (getHistoricalData exStPY ["AAPL"] "2024-02-01" "2024-02-02" "1Day" none 0
        failFetch).1 = MgrResult.ok 0 :=
  C3_total_failure_returns_empty exStPY ["AAPL"] "2024-02-01" "2024-02-02"
    "1Day" none 0 failFetch (fun _ => rfl) rfl (Or.inr (Or.inl rfl))

/-- Claim C4 (amended): two historical-data requests with the *same ordered*
symbol list (and same start, end, timeframe) derive the same cache key, so
the second hits the entry cached by the first: whenever the cache holds a
fresh entry at that key, the call returns it and only bumps the hit counter,
regardless of the fetch environment.  (Reordering the symbols changes the
key, see the counterexample.) -/
theorem C4_same_order_hits_cache (st : MgrState) (symbols : List String)
    (startD endD tf : String) (source : Option String) (now : ℚ)
    (fetch : String → Option Nat) (e : CacheEntry)
    (hc : st.enableCaching = true)
    (hl : st.cache.lookup (cacheKeyHist symbols startD endD tf) = some e)
    (hfresh : now - e.timestamp ≤ 24) :
    getHistoricalData st symbols startD endD tf source now fetch
      = (.ok e.data, { st with cacheHits := st.cacheHits + 1 }) := by
  have h1 : loadFromCache st.cache (cacheKeyHist symbols startD endD tf)
      now 24 = (some e.data, st.cache) := by
    unfold loadFromCache
    simp only [hl]
    rw [if_pos hfresh]
  unfold getHistoricalData
  simp only [getHistoricalDataFuel, hc, if_true, h1]

/-- Counterexample for claim C4 as stated: the same logical request with the
symbols listed in the other order produces a different cache key. -/
theorem C4_counterexample :
    cacheKeyHist ["A", "B"] "2024-01-01" "2024-01-02" "1Day"
      ≠ cacheKeyHist ["B", "A"] "2024-01-01" "2024-01-02" "1Day" := by
  decide

/-- Witness for C4 at a concrete fresh cache entry. -/
theorem C4_same_order_hits_cache_witness :
    getHistoricalData exStCnt ["SPY"] "2024-01-01" "2024-01-02" "1Day" none 10
        failFetch
      = (.ok 9, { exStCnt with cacheHits := exStCnt.cacheHits + 1 }) :=
  C4_same_order_hits_cache exStCnt ["SPY"] "2024-01-01" "2024-01-02" "1Day"
    none 10 failFetch ⟨9, 0⟩ rfl (by decide) (by norm_num)

/-- Claim C8 (amended): clearing the cache removes every entry but does NOT
reset the hit and miss counters reported by `get_cache_stats`; they keep
their pre-clear values. -/
theorem C8_clear_keeps_counters (st : MgrState) :
    (clearCache st).cache = [] ∧
    (getCacheStats (clearCache st)).hits = st.cacheHits ∧
    (getCacheStats (clearCache st)).misses = st.cacheMisses :=
  ⟨rfl, rfl, rfl⟩

/-- Counterexample for claim C8 as stated: after clearing a manager that had
3 hits and 2 misses, the statistics still report those counts instead of
zero. -/
theorem C8_counterexample :
    ¬ ((getCacheStats (clearCache exStCnt)).hits = 0 ∧
       (getCacheStats (clearCache exStCnt)).misses = 0) := by
  intro hcon
  exact absurd hcon.1 (by decide)

/-- Claim C9: when every upstream fetch fails, the failed call writes no
cache entry: every record of the post-call cache was already present, and
every lookup with a TTL of at most the 24 hours used by the historical path,
made at the time of the call or later, reports exactly what it would have
reported on the pre-call cache. -/
theorem C9_failed_fetch_cache_intact (st : MgrState) (symbols : List String)
    (startD endD tf : String) (source : Option String) (now : ℚ)
    (fetch : String → Option Nat) (hfetch : ∀ s, fetch s = none) :
    (∀ p, p ∈ (getHistoricalData st symbols startD endD tf source now
        fetch).2.cache → p ∈ st.cache) ∧
    (∀ (k : String) (now₂ m : ℚ), now ≤ now₂ → m ≤ 24 →
      (loadFromCache (getHistoricalData st symbols startD endD tf source now
          fetch).2.cache k now₂ m).1
        = (loadFromCache st.cache k now₂ m).1) := by
  have h := histFuel_cache_of_fetchFail 2 st symbols startD endD tf source
    now fetch hfetch
  unfold getHistoricalData
  rcases h with hc | ⟨e, he, hexp, hc⟩
  · constructor
    · intro p hp
      rwa [hc] at hp
    · intro k now₂ m h1 h2
      rw [hc]
  · constructor
    · intro p hp
      rw [hc] at hp
      exact List.mem_of_mem_filter hp
    · intro k now₂ m h1 h2
      rw [hc]
      exact load_fst_after_evict st.cache (cacheKeyHist symbols startD endD tf)
        k now now₂ m 24 e he hexp h1 h2

/-- Witness for C9: the concrete expired entry is evicted, yet a later
lookup for its key reports the same miss it would have reported before. -/
theorem C9_failed_fetch_cache_intact_witness :
    (loadFromCache (getHistoricalData exStCnt ["SPY"] "2024-01-01"
        "2024-01-02" "1Day" none 30 failFetch).2.cache
        "hist_SPY_2024-01-01_2024-01-02_1Day" 31 24).1
      = (loadFromCache exStCnt.cache
          "hist_SPY_2024-01-01_2024-01-02_1Day" 31 24).1 :=
  (C9_failed_fetch_cache_intact exStCnt ["SPY"] "2024-01-01" "2024-01-02"
      "1Day" none 30 failFetch (fun _ => rfl)).2
    "hist_SPY_2024-01-01_2024-01-02_1Day" 31 24 (by norm_num) (by norm_num)

/-- Claim C10: if the Polygon source is not configured or failed to
initialise, an options-chain request raises a `RuntimeError` immediately and
leaves the manager state — cache, hit counter, miss counter — untouched. -/
theorem C10_options_requires_polygon (st : MgrState)
    (sym expD strike otype : String) (now : ℚ) (fetch : Option Nat)
    (h : st.polygonAvail = false) :
    getOptionsChain st sym expD strike otype now fetch
      = (.raised "Polygon is required for options data", st) := by
  unfold getOptionsChain
  rw [h]
  rfl

/-- Witness for C10 at a concrete manager without Polygon. -/
theorem C10_options_requires_polygon_witness :
    getOptionsChain exStNoPoly "AAPL" "a" "b" "c" 0 none
      = (.raised "Polygon is required for options data", exStNoPoly) :=
  C10_options_requires_polygon exStNoPoly "AAPL" "a" "b" "c" 0 none rfl

/-! ### Retry-loop structure: claims C5, C6, C7 -/

/-- The retry loop issues at most `fuel` attempts. -/
theorem requestLoop_attempts_le (f : Nat → Attempt) (fuel : Nat) :
    ∀ (i : Nat) (s : FeedState),
      ((requestLoop f i fuel s).2.2.countP isAttempt) ≤ fuel := by
  induction fuel with
  | zero =>
    intro i s
    simp [requestLoop]
  | succ n ih =>
    intro i s
    simp only [requestLoop]
    split
    · split
      · simp [List.countP_cons, isAttempt]
      · split
        · simp only [List.countP_cons, List.countP_nil, isAttempt,
            eq_self_iff_true, Bool.false_eq_true, if_true, if_false,
            Nat.add_zero, Nat.zero_add]
          exact Nat.add_le_add_right (ih (i + 1) _) 1
        · split
          · simp only [List.countP_cons, List.countP_nil, isAttempt,
              eq_self_iff_true, Bool.false_eq_true, if_true, if_false,
              Nat.add_zero, Nat.zero_add]
            exact Nat.add_le_add_right (ih (i + 1) _) 1
          · simp [List.countP_cons, isAttempt]
    · split
      · simp only [List.countP_cons, List.countP_nil, isAttempt,
          eq_self_iff_true, Bool.false_eq_true, if_true, if_false,
          Nat.add_zero, Nat.zero_add]
        exact Nat.add_le_add_right (ih (i + 1) _) 1
      · simp [List.countP_cons, isAttempt]

/-- Claim C6: `_make_request` performs at most `retries` HTTP attempts and
always terminates with a result (`some`) or a failure (`none`), whatever the
sequence of response statuses. -/
theorem C6_attempts_bounded (limit retries : Nat) (f : Nat → Attempt)
    (s : FeedState) :
    ((makeRequest limit retries f s).2.2.countP isAttempt) ≤ retries := by
  unfold makeRequest
  simp only [List.countP_cons, isRateCheck, isAttempt, if_false]
  exact requestLoop_attempts_le f retries 0 _

/-- The retry loop never runs an admission check. -/
theorem requestLoop_no_rateCheck (f : Nat → Attempt) (fuel : Nat) :
    ∀ (i : Nat) (s : FeedState),
      ((requestLoop f i fuel s).2.2.countP isRateCheck) = 0 := by
  induction fuel with
  | zero =>
    intro i s
    simp [requestLoop]
  | succ n ih =>
    intro i s
    simp only [requestLoop]
    split
    · split
      · simp [List.countP_cons, isRateCheck]
      · split
        · simp only [List.countP_cons, List.countP_nil, isRateCheck,
            eq_self_iff_true, Bool.false_eq_true, if_true, if_false,
            Nat.add_zero, Nat.zero_add]
          exact ih (i + 1) _
        · split
          · simp only [List.countP_cons, List.countP_nil, isRateCheck,
              eq_self_iff_true, Bool.false_eq_true, if_true, if_false,
              Nat.add_zero, Nat.zero_add]
            exact ih (i + 1) _
          · simp [List.countP_cons, isRateCheck]
    · split
      · simp only [List.countP_cons, List.countP_nil, isRateCheck,
          eq_self_iff_true, Bool.false_eq_true, if_true, if_false,
          Nat.add_zero, Nat.zero_add]
        exact ih (i + 1) _
      · simp [List.countP_cons, isRateCheck]

/-- Claim C5 (amended): each `_make_request` call runs the rate limiter's
admission check exactly once, before its first HTTP attempt; the retry
attempts inside the same call are issued without a fresh admission check. -/
theorem C5_admission_once_per_request (limit retries : Nat)
    (f : Nat → Attempt) (s : FeedState) :
    ∃ rest, (makeRequest limit retries f s).2.2 = Event.rateCheck :: rest ∧
      rest.countP isRateCheck = 0 :=
  ⟨(requestLoop f 0 retries (enforceRateLimit limit s)).2.2, rfl,
    requestLoop_no_rateCheck f retries 0 _⟩

/-- Counterexample for claim C5 as stated: a request whose first two
attempts hit HTTP 500 issues three HTTP attempts after a single admission
pass, so the retried attempts are not individually admitted. -/
theorem C5_counterexample :
    everyAttemptAdmitted (makeRequest 5 3 twoServerErrors feedStart).2.2
        = false ∧
    (makeRequest 5 3 twoServerErrors feedStart).2.2.countP isAttempt = 3 := by
  constructor
  · decide
  · decide

/-- Every trace of the retry loop follows the retry policy, and its first
event (if any) is the attempt with the expected index. -/
theorem requestLoop_policyOK (f : Nat → Attempt) (fuel : Nat) :
    ∀ (i : Nat) (s : FeedState),
      policyOK (requestLoop f i fuel s).2.2 = true ∧
      nextIsAttemptOrEnd i (requestLoop f i fuel s).2.2 = true := by
  induction fuel with
  | zero =>
    intro i s
    exact ⟨rfl, rfl⟩
  | succ n ih =>
    intro i s
    simp only [requestLoop]
    rcases ho : (f i).outcome with c | _
    · simp only [ho]
      by_cases h200 : c = 200
      · rw [if_pos h200]
        refine ⟨?_, by simp [nextIsAttemptOrEnd]⟩
        simp [policyOK, ho, h200]
      · rw [if_neg h200]
        by_cases h429 : c = 429
        · rw [if_pos h429]
          refine ⟨?_, by simp [nextIsAttemptOrEnd]⟩
          simp only [policyOK, ho, if_neg h200, if_pos h429]
          rw [(ih (i + 1) _).1, (ih (i + 1) _).2]
          simp
        · rw [if_neg h429]
          by_cases h5xx : 500 ≤ c
          · rw [if_pos h5xx]
            refine ⟨?_, by simp [nextIsAttemptOrEnd]⟩
            simp only [policyOK, ho, if_neg h200, if_neg h429, if_pos h5xx]
            rw [(ih (i + 1) _).1, (ih (i + 1) _).2]
            simp
          · rw [if_neg h5xx]
            refine ⟨?_, by simp [nextIsAttemptOrEnd]⟩
            simp [policyOK, ho, h200, h429, h5xx]
    · simp only [ho]
      by_cases hn : 0 < n
      · rw [if_pos hn]
        refine ⟨?_, by simp [nextIsAttemptOrEnd]⟩
        simp only [policyOK, ho]
        rw [(ih (i + 1) _).1, (ih (i + 1) _).2]
        simp
      · rw [if_neg hn]
        refine ⟨?_, by simp [nextIsAttemptOrEnd]⟩
        simp [policyOK, ho]

/-- Claim C7: every `_make_request` trace follows the specified per-status
retry policy: 200 returns at once; 429 sleeps a fixed 60 s cooldown and then
retries (when attempts remain); 5xx sleeps the exponential `2 ^ attempt`
backoff and then retries (when attempts remain); any other status returns
immediately with no sleep and no retry. -/
theorem C7_retry_policy (limit retries : Nat) (f : Nat → Attempt)
    (s : FeedState) :
    policyOK (makeRequest limit retries f s).2.2 = true := by
  unfold makeRequest
  simp only [policyOK]
  exact (requestLoop_policyOK f retries 0 _).1

/-! ### Rate-window invariant: claim C2 -/

/-- Counting with a stricter predicate misses at least one element. -/
theorem countP_lt_length {α} (l : List α) (p : α → Bool) (a : α)
    (ha : a ∈ l) (hp : p a = false) : l.countP p < l.length := by
  induction l with
  | nil => cases ha
  | cons x xs ih =>
    rw [List.countP_cons, List.length_cons]
    rcases List.mem_cons.mp ha with h | h
    · subst h
      have h2 := List.countP_le_length (p := p) (l := xs)
      simp only [hp, Bool.false_eq_true, if_false]
      omega
    · by_cases hx : p x = true
      · simp only [hx, if_true]
        have h2 := ih h
        omega
      · simp only [Bool.eq_false_iff.mpr hx, Bool.false_eq_true, if_false]
        have h2 := ih h
        omega

/-- Refiltering with a predicate that implies the first keeps only the
second filter. -/
theorem filter_filter_of_imp {α} (l : List α) (p q : α → Bool)
    (himp : ∀ a, q a = true → p a = true) :
    (l.filter p).filter q = l.filter q := by
  rw [List.filter_filter]
  apply List.filter_congr
  intro a _
  by_cases hq : q a = true
  · simp [hq, himp a hq]
  · simp [Bool.eq_false_iff.mpr hq]

/-- Python's `min` over the folded list is a lower bound. -/
theorem foldl_min_le (xs : List ℚ) : ∀ (a : ℚ),
    xs.foldl min a ≤ a ∧ ∀ x ∈ xs, xs.foldl min a ≤ x := by
  induction xs with
  | nil => intro a; exact ⟨le_refl a, by simp⟩
  | cons y ys ih =>
    intro a
    rw [List.foldl_cons]
    obtain ⟨h1, h2⟩ := ih (min a y)
    refine ⟨le_trans h1 (min_le_left a y), ?_⟩
    intro x hx
    rcases List.mem_cons.mp hx with h | h
    · subst h; exact le_trans h1 (min_le_right a x)
    · exact h2 x h

/-- Python's `min` of a folded list is attained. -/
theorem foldl_min_mem (xs : List ℚ) : ∀ (a : ℚ),
    xs.foldl min a = a ∨ xs.foldl min a ∈ xs := by
  induction xs with
  | nil => intro a; left; rfl
  | cons y ys ih =>
    intro a
    rw [List.foldl_cons]
    rcases ih (min a y) with h | h
    · rcases min_choice a y with hm | hm
      · left; rw [h, hm]
      · right; rw [h, hm]; exact List.mem_cons_self y ys
    · right; exact List.mem_cons_of_mem y h

/-- `listMin` of a nonempty list is one of its elements. -/
theorem listMin_mem (l : List ℚ) (hne : l ≠ []) : listMin l ∈ l := by
  cases l with
  | nil => exact absurd rfl hne
  | cons x xs =>
    rcases foldl_min_mem xs x with h | h
    · rw [listMin, h]; exact List.mem_cons_self x xs
    · exact List.mem_cons_of_mem x h

/-- `listMin` is a lower bound of the list. -/
theorem listMin_le (l : List ℚ) : ∀ x ∈ l, listMin l ≤ x := by
  cases l with
  | nil => intro x hx; cases hx
  | cons y ys =>
    intro x hx
    rw [listMin]
    rcases List.mem_cons.mp hx with h | h
    · subst h; exact (foldl_min_le ys x).1
    · exact (foldl_min_le ys y).2 x h

/-- What `_enforce_rate_limit` guarantees: the history and the invariant are
preserved, the clock does not go backward, and after the call every future
window over the history has strictly fewer than `limit` stamps — exactly the
room needed to admit one more call. -/
theorem enforce_spec (limit : Nat) (s : FeedState) (hlim : 1 ≤ limit)
    (hinv : Inv limit s) :
    (enforceRateLimit limit s).history = s.history ∧
    s.now ≤ (enforceRateLimit limit s).now ∧
    Inv limit (enforceRateLimit limit s) ∧
    (∀ t, (enforceRateLimit limit s).now ≤ t →
      countInWindow s.history t < limit) := by
  obtain ⟨hle, hwin, hts⟩ := hinv
  have hts_eq : s.callTimestamps.filter (fun h => decide (s.now - h < 60))
      = s.history.filter (fun h => decide (s.now - h < 60)) :=
    hts s.now (le_refl _)
  have hcount_now : countInWindow s.history s.now
      = (s.callTimestamps.filter (fun h => decide (s.now - h < 60))).length := by
    rw [hts_eq, countInWindow, List.countP_eq_length_filter]
    congr 1
    apply List.filter_congr
    intro h hh
    rw [decide_eq_decide]
    exact ⟨fun hx => hx.2, fun hx => ⟨hle h hh, hx⟩⟩
  by_cases hfull : limit ≤
      (s.callTimestamps.filter (fun h => decide (s.now - h < 60))).length
  · have hne : s.callTimestamps.filter (fun h => decide (s.now - h < 60))
        ≠ [] := by
      intro h0
      rw [h0] at hfull
      simp at hfull
      omega
    have homem := listMin_mem _ hne
    have ho60 : s.now
        - listMin (s.callTimestamps.filter (fun h => decide (s.now - h < 60)))
        < 60 := by
      have h1 := (List.mem_filter.mp homem).2
      simpa using h1
    have hwait : 0 < 60 - (s.now
        - listMin (s.callTimestamps.filter
            (fun h => decide (s.now - h < 60)))) := by
      linarith
    have henf : enforceRateLimit limit s =
        { callTimestamps :=
            s.callTimestamps.filter (fun h => decide (s.now - h < 60))
          now := s.now + (60 - (s.now
            - listMin (s.callTimestamps.filter
                (fun h => decide (s.now - h < 60))))) + 1 / 10
          history := s.history } := by
      simp only [enforceRateLimit]
      rw [if_pos hfull, if_pos hwait]
    rw [henf]
    refine ⟨rfl, by linarith, ⟨?_, ?_, ?_⟩, ?_⟩
    · intro h hh
      have := hle h hh
      simp only
      linarith
    · exact hwin
    · intro N hN
      simp only at hN ⊢
      rw [filter_filter_of_imp]
      · exact hts N (by linarith)
      · intro a ha
        rw [decide_eq_true_eq] at ha ⊢
        linarith
    · intro t ht
      simp only at ht
      have hstep1 : countInWindow s.history t ≤
          s.history.countP (fun h =>
            decide (listMin (s.callTimestamps.filter
              (fun h => decide (s.now - h < 60))) < h)
            && decide (s.now - h < 60)) := by
        apply List.countP_mono_left
        intro h hh hcw
        rw [decide_eq_true_eq] at hcw
        rw [Bool.and_eq_true, decide_eq_true_eq, decide_eq_true_eq]
        obtain ⟨hht, hhw⟩ := hcw
        constructor
        · linarith
        · linarith
      have hstep2 : s.history.countP (fun h =>
            decide (listMin (s.callTimestamps.filter
              (fun h => decide (s.now - h < 60))) < h)
            && decide (s.now - h < 60))
          = (s.history.filter (fun h => decide (s.now - h < 60))).countP
              (fun h => decide (listMin (s.callTimestamps.filter
                (fun h => decide (s.now - h < 60))) < h)) := by
        rw [List.countP_filter]
      have hstep3 : (s.history.filter
            (fun h => decide (s.now - h < 60))).countP
              (fun h => decide (listMin (s.callTimestamps.filter
                (fun h => decide (s.now - h < 60))) < h))
          < (s.history.filter (fun h => decide (s.now - h < 60))).length := by
        apply countP_lt_length _ _
          (listMin (s.callTimestamps.filter (fun h => decide (s.now - h < 60))))
        · rw [← hts_eq]
          exact homem
        · simp
      have hstep4 : (s.history.filter
          (fun h => decide (s.now - h < 60))).length ≤ limit := by
        rw [← hts_eq, ← hcount_now]
        exact hwin s.now
      omega
  · have henf : enforceRateLimit limit s =
        { callTimestamps :=
            s.callTimestamps.filter (fun h => decide (s.now - h < 60))
          now := s.now
          history := s.history } := by
      simp only [enforceRateLimit]
      rw [if_neg hfull]
    rw [henf]
    refine ⟨rfl, le_refl _, ⟨?_, ?_, ?_⟩, ?_⟩
    · intro h hh
      exact hle h hh
    · exact hwin
    · intro N hN
      simp only at hN ⊢
      rw [filter_filter_of_imp]
      · exact hts N hN
      · intro a ha
        rw [decide_eq_true_eq] at ha ⊢
        linarith
    · intro t ht
      simp only at ht
      have hstep1 : countInWindow s.history t ≤ countInWindow s.history s.now := by
        apply List.countP_mono_left
        intro h hh hcw
        rw [decide_eq_true_eq] at hcw
        rw [decide_eq_true_eq]
        exact ⟨hle h hh, by linarith [hcw.1, hcw.2]⟩
      have hstep2 : countInWindow s.history s.now < limit := by
        rw [hcount_now]
        omega
      omega

/-- Appending the admitted call's timestamp preserves the invariant, given
the room guaranteed by the admission check. -/
theorem append_inv (limit : Nat) (s : FeedState) (dur : ℚ) (hdur : 0 ≤ dur)
    (hinv : Inv limit s)
    (hroom : ∀ t, s.now ≤ t → countInWindow s.history t < limit) :
    Inv limit
      { callTimestamps := s.callTimestamps ++ [s.now + dur],
        now := s.now + dur, history := s.history ++ [s.now + dur] } := by
  obtain ⟨hle, hwin, hts⟩ := hinv
  refine ⟨?_, ?_, ?_⟩
  · intro h hh
    simp only
    rcases List.mem_append.mp hh with h1 | h1
    · have := hle h h1
      linarith
    · simp at h1
      subst h1
      exact le_refl _
  · intro t
    simp only [countInWindow, List.countP_append]
    by_cases hin : (decide (s.now + dur ≤ t ∧ t - (s.now + dur) < 60)) = true
    · have h1 : List.countP
          (fun h => decide (h ≤ t ∧ t - h < 60)) [s.now + dur] = 1 := by
        rw [List.countP_cons, List.countP_nil, hin]
        rfl
      have h2 : countInWindow s.history t < limit := by
        apply hroom t
        rw [decide_eq_true_eq] at hin
        linarith [hin.1]
      rw [countInWindow] at h2
      omega
    · have h1 : List.countP
          (fun h => decide (h ≤ t ∧ t - h < 60)) [s.now + dur] = 0 := by
        rw [List.countP_cons, List.countP_nil,
          Bool.eq_false_iff.mpr hin]
        rfl
      have h2 := hwin t
      rw [countInWindow] at h2
      omega
  · intro N hN
    simp only at hN ⊢
    rw [List.filter_append, List.filter_append, hts N (by linarith)]

/-- A `_make_request` whose first attempt succeeds at once preserves the
invariant. -/
theorem makeRequest_inv (limit retries : Nat) (f : Nat → Attempt)
    (s : FeedState) (hlim : 1 ≤ limit)
    (hok : (f 0).outcome = .status 200 ∧ 0 ≤ (f 0).dur)
    (hinv : Inv limit s) :
    Inv limit (makeRequest limit retries f s).2.1 := by
  obtain ⟨henf_hist, henf_now, henf_inv, henf_room⟩ :=
    enforce_spec limit s hlim hinv
  unfold makeRequest
  cases retries with
  | zero => exact henf_inv
  | succ n =>
    simp only [requestLoop, hok.1, if_pos (rfl : (200 : Nat) = 200)]
    have hroom : ∀ t, (enforceRateLimit limit s).now ≤ t →
        countInWindow (enforceRateLimit limit s).history t < limit := by
      intro t ht
      rw [henf_hist]
      exact henf_room t ht
    exact append_inv limit (enforceRateLimit limit s) (f 0).dur hok.2
      henf_inv hroom

/-- Any benign client run preserves the invariant. -/
theorem runCmds_inv (limit retries : Nat) (cmds : List Cmd) (hlim : 1 ≤ limit)
    (hok : ∀ c ∈ cmds, okCmd c) :
    ∀ s, Inv limit s → Inv limit (runCmds limit retries cmds s) := by
  induction cmds with
  | nil =>
    intro s h
    exact h
  | cons c rest ih =>
    intro s h
    have hrest : ∀ x ∈ rest, okCmd x :=
      fun x hx => hok x (List.mem_cons_of_mem _ hx)
    cases c with
    | advance d =>
      simp only [runCmds]
      apply ih hrest
      obtain ⟨hle, hwin, hts⟩ := h
      have hd : 0 ≤ d := hok _ (List.mem_cons_self _ _)
      refine ⟨?_, hwin, ?_⟩
      · intro x hx
        have := hle x hx
        simp only
        linarith
      · intro N hN
        simp only at hN ⊢
        exact hts N (by linarith)
    | request f =>
      simp only [runCmds]
      apply ih hrest
      exact makeRequest_inv limit retries f s hlim
        (hok _ (List.mem_cons_self _ _)) h

/-- Claim C2 (amended): over any run in which every request is answered on
its first attempt (no retries), the number of recorded call timestamps in
any trailing 60-second window never exceeds the configured per-minute
limit; stale timestamps are purged before each admission check.  (When a
request is retried the retry attempts are recorded without a fresh
admission check and the bound can be exceeded — see the counterexample.) -/
theorem C2_window_bound_single_attempt (limit retries : Nat)
    (cmds : List Cmd) (hlim : 1 ≤ limit) (hok : ∀ c ∈ cmds, okCmd c)
    (t : ℚ) :
    countInWindow (runCmds limit retries cmds feedStart).history t
      ≤ limit := by
  have hbase : Inv limit feedStart := by
    refine ⟨?_, ?_, ?_⟩
    · intro h hh
      cases hh
    · intro u
      simp [feedStart, countInWindow]
    · intro N hN
      rfl
  exact (runCmds_inv limit retries cmds hlim hok feedStart hbase).2.1 t

/-- Counterexample for claim C2 as stated: with the free-tier limit of 5 and
the default 3 retries, two back-to-back requests whose first two attempts
each return HTTP 500 put 6 timestamps inside one trailing 60-second window,
because the retried attempts are recorded without re-admission. -/
theorem C2_counterexample :
    5 < countInWindow (runCmds 5 3
        [Cmd.request twoServerErrors, Cmd.request twoServerErrors]
        feedStart).history 6 := by
  norm_num [runCmds, makeRequest, requestLoop, enforceRateLimit, feedStart,
    twoServerErrors, countInWindow, listMin, List.countP, List.countP.go]

/-- Witness for C2 over a concrete benign run. -/
theorem C2_window_bound_single_attempt_witness :
    countInWindow (runCmds 5 3 exGoodCmds feedStart).history 2 ≤ 5 := by
  apply C2_window_bound_single_attempt 5 3 exGoodCmds (by norm_num)
  intro c hc
  simp only [exGoodCmds, List.mem_cons, List.not_mem_nil, or_false] at hc
  rcases hc with rfl | rfl | rfl
  · exact ⟨rfl, le_refl 0⟩
  · norm_num [okCmd]
  · exact ⟨rfl, le_refl 0⟩

end AlphaLens
